import Mathlib

/-!
Verification of the tgBackup synchronization engine.

This file gives a shallow embedding of the sync core of the repository:
the per-user cursor state machine of autoSyncUser (main.go), peer-address
resolution and raw-message normalization (internal/telegram/client.go),
and the stored-state access paths (internal/database/database.go), and
proves or refutes the specified properties about them.
-/

namespace TgBackup

/-! ## Sync cursor (tg.UpdatesState, updates_state table) -/

/-- Cursor record: pts, qts, date, seq (tg.UpdatesState; updates_state row). -/
structure UpdatesState where
  pts : Int
  qts : Int
  date : Int
  seq : Int
deriving DecidableEq

/-- database.go DB.GetUpdatesState: reading the stored cursor row for a user;
a missing row (sql.ErrNoRows) yields all zeros with no error. -/
def getUpdatesState (row : Option UpdatesState) : UpdatesState :=
  match row with
  | none => ⟨0, 0, 0, 0⟩
  | some s => s

/-- main.go autoSyncUser line 39: the bootstrap branch is taken when
storedPts == 0 and storedQts == 0 and storedDate == 0 (seq is not consulted). -/
def selectsBootstrap (s : UpdatesState) : Bool :=
  s.pts == 0 && s.qts == 0 && s.date == 0

/-- The two modes of a sync pass. -/
inductive SyncMode where
  | bootstrap
  | incremental
deriving DecidableEq

/-- Mode selection of autoSyncUser given the stored cursor row. -/
def syncModeFor (row : Option UpdatesState) : SyncMode :=
  if selectsBootstrap (getUpdatesState row) then .bootstrap else .incremental

/-! ## Raw remote data (gotd tg types, as used by client.go) -/

/-- tg.Peer variants appearing in FromID and PeerID. -/
inductive Peer where
  | user (userID : Int)
  | chat (chatID : Int)
  | channel (channelID : Int)
deriving DecidableEq

/-- Fields of tg.User consumed by the parser. -/
structure RawUser where
  id : Int
  username : String
  firstName : String
  lastName : String
deriving DecidableEq

/-- tg.UserClass: only plain tg.User entries are consulted. -/
inductive UserClass where
  | user (u : RawUser)
  | emptyUser
deriving DecidableEq

/-- tg.DocumentAttributeClass variants the parser switches on; every other
attribute falls through with no effect. -/
inductive DocumentAttribute where
  | video
  | audio (title : String)
  | filename (fileName : String)
  | imageSize
  | animated
  | sticker
  | otherAttr
deriving DecidableEq

/-- A plain tg.PhotoSize: width, height and byte size. -/
structure PhotoSizeVariant where
  w : Int
  h : Int
  size : Int
deriving DecidableEq

/-- tg.PhotoSizeClass: getPhotoURL only considers plain tg.PhotoSize entries. -/
inductive PhotoSizeClass where
  | photoSize (v : PhotoSizeVariant)
  | otherSize
deriving DecidableEq

/-- Fields of tg.Photo consumed by getPhotoURL. -/
structure Photo where
  id : Int
  sizes : List PhotoSizeClass
deriving DecidableEq

/-- tg.PhotoClass inside MessageMediaPhoto: the type assertion to tg.Photo. -/
inductive PhotoClass where
  | photo (p : Photo)
  | emptyPhoto
deriving DecidableEq

/-- Fields of tg.Document consumed by the parser. -/
structure Document where
  id : Int
  size : Int
  attributes : List DocumentAttribute
deriving DecidableEq

/-- tg.DocumentClass inside MessageMediaDocument: the type assertion to tg.Document. -/
inductive DocumentClass where
  | document (d : Document)
  | emptyDocument
deriving DecidableEq

/-- tg.MessageMediaClass variants the parser switches on; unrecognized media
falls through with no effect. -/
inductive MessageMedia where
  | photo (p : PhotoClass)
  | document (d : DocumentClass)
  | webPage
  | contact
  | geo
  | poll
  | otherMedia
deriving DecidableEq

/-- Fields of tg.Message consumed by parseMessageWithUsers and ParseUpdatesMessages. -/
structure RawMessage where
  id : Int
  message : String
  media : Option MessageMedia
  fromID : Option Peer
  peerID : Option Peer
  date : Int
deriving DecidableEq

/-- models.Message as produced by the parser (time.Unix on msg.Date is kept
as the raw integer date). -/
structure Message where
  userID : Int
  conversationID : Int
  messageID : Int
  fromID : Int
  fromUsername : String
  fromFirstName : String
  fromLastName : String
  content : String
  messageType : String
  mediaURL : String
  timestamp : Int
deriving DecidableEq

/-! ## Media URL helpers (client.go getPhotoURL / getDocumentURL) -/

/-- The loop body of getPhotoURL: scan the size list keeping the plain
PhotoSize with the strictly largest w*h seen so far (initial max is 0). -/
def selectLargest : List PhotoSizeClass → Option PhotoSizeVariant × Int →
    Option PhotoSizeVariant × Int
  | [], acc => acc
  | .photoSize v :: rest, (b, m) =>
      if v.w * v.h > m then selectLargest rest (some v, v.w * v.h)
      else selectLargest rest (b, m)
  | .otherSize :: rest, acc => selectLargest rest acc

/-- client.go getPhotoURL. -/
def getPhotoURL (p : Photo) : String :=
  if p.sizes.isEmpty then ""
  else
    match (selectLargest p.sizes (none, 0)).1 with
    | some v => "telegram://photo/" ++ toString p.id ++ "_" ++ toString v.size
    | none => ""

/-- client.go getDocumentURL (the nil receiver guard is unreachable here). -/
def getDocumentURL (d : Document) : String :=
  "telegram://document/" ++ toString d.id ++ "_" ++ toString d.size

/-! ## Message normalization (client.go parseMessageWithUsers) -/

/-- The mutable locals of the document-attribute loop. -/
structure DocParseState where
  messageType : String
  content : String
  mediaName : String
deriving DecidableEq

/-- One iteration of the attribute switch in the MessageMediaDocument branch. -/
def applyAttribute (st : DocParseState) (attr : DocumentAttribute) : DocParseState :=
  match attr with
  | .video =>
      { st with messageType := "video",
                content := if st.content = "" then "[Video]" else st.content }
  | .audio title =>
      let st1 : DocParseState :=
        { st with messageType := "audio",
                  content := if st.content = "" then "[Audio]" else st.content }
      if title = "" then st1 else { st1 with mediaName := title }
  | .filename fn => { st with mediaName := fn }
  | .imageSize =>
      if st.messageType = "text" then
        { st with messageType := "image",
                  content := if st.content = "" then "[Image]" else st.content }
      else st
  | .animated =>
      { st with messageType := "gif",
                content := if st.content = "" then "[GIF]" else st.content }
  | .sticker =>
      { st with messageType := "sticker",
                content := if st.content = "" then "[Sticker]" else st.content }
  | .otherAttr => st

/-- The whole MessageMediaDocument branch: attribute loop, the document
default, the default media name, and the document URL. -/
def parseDocument (st0 : DocParseState) (d : Document) : DocParseState × String :=
  let st1 := d.attributes.foldl applyAttribute st0
  let st2 :=
    if st1.messageType = "text" then
      { st1 with messageType := "document",
                 content := if st1.content = "" then "[Document]" else st1.content }
    else st1
  let st3 :=
    if st2.mediaName = "" then { st2 with mediaName := st2.messageType ++ ".file" }
    else st2
  (st3, getDocumentURL d)

/-- The user-directory lookup in the FromID handling: the first plain tg.User
with a matching id. -/
def findUser (users : List UserClass) (uid : Int) : Option RawUser :=
  match users with
  | [] => none
  | .user u :: rest => if u.id == uid then some u else findUser rest uid
  | .emptyUser :: rest => findUser rest uid

/-- client.go parseMessageWithUsers. -/
def parseMessageWithUsers (msg : RawMessage) (users : List UserClass) : Message :=
  let st0 : DocParseState :=
    { messageType := "text", content := msg.message, mediaName := "" }
  let stp :=
    match msg.media with
    | none => (st0, "")
    | some m =>
      match m with
      | .photo pc =>
          let st1 : DocParseState :=
            { st0 with messageType := "photo",
                       content := if st0.content = "" then "[Photo]" else st0.content }
          match pc with
          | .photo p => (st1, getPhotoURL p)
          | .emptyPhoto => (st1, "")
      | .document dc =>
          match dc with
          | .document d => parseDocument st0 d
          | .emptyDocument => (st0, "")
      | .webPage =>
          ({ st0 with content := if st0.content = "" then "[Webpage]" else st0.content }, "")
      | .contact =>
          ({ st0 with messageType := "contact",
                      content := if st0.content = "" then "[Contact]" else st0.content }, "")
      | .geo =>
          ({ st0 with messageType := "location",
                      content := if st0.content = "" then "[Location]" else st0.content }, "")
      | .poll =>
          ({ st0 with messageType := "poll",
                      content := if st0.content = "" then "[Poll]" else st0.content }, "")
      | .otherMedia => (st0, "")
  let st := stp.1
  let sender :=
    match msg.fromID with
    | none => (0, "", "", "")
    | some (.user uid) =>
        match findUser users uid with
        | some u => (uid, u.username, u.firstName, u.lastName)
        | none => (uid, "", "", "")
    | some (.chat cid) => (cid, "", "", "")
    | some (.channel chid) => (chid, "", "", "")
  let finalContent :=
    if st.mediaName = "" then st.content
    else if st.content = "" then st.content
    else st.content ++ "\n📁 " ++ st.mediaName
  { userID := 0, conversationID := 0, messageID := msg.id,
    fromID := sender.1, fromUsername := sender.2.1,
    fromFirstName := sender.2.2.1, fromLastName := sender.2.2.2,
    content := finalContent, messageType := st.messageType,
    mediaURL := stp.2, timestamp := msg.date }

/-! ## History responses and peer resolution (client.go) -/

/-- tg.MessageClass: only plain tg.Message entries are parsed. -/
inductive MessageClass where
  | message (m : RawMessage)
  | otherMessage
deriving DecidableEq

/-- tg.MessagesMessagesClass: the three parsed constructors carry the same
fields the code reads; anything else produces no messages. -/
inductive MessagesMessagesClass where
  | messages (msgs : List MessageClass) (users : List UserClass)
  | slice (msgs : List MessageClass) (users : List UserClass)
  | channelMessages (msgs : List MessageClass) (users : List UserClass)
  | otherResult
deriving DecidableEq

/-- The shared loop of parseMessagesResponse: keep tg.Message entries, parse
each with the batch user directory, and stamp the conversation id. -/
def parseBatch (msgs : List MessageClass) (users : List UserClass) (peerID : Int) :
    List Message :=
  msgs.filterMap fun mc =>
    match mc with
    | .message m => some { parseMessageWithUsers m users with conversationID := peerID }
    | .otherMessage => none

/-- client.go parseMessagesResponse. -/
def parseMessagesResponse (resp : MessagesMessagesClass) (peerID : Int) : List Message :=
  match resp with
  | .messages msgs users => parseBatch msgs users peerID
  | .slice msgs users => parseBatch msgs users peerID
  | .channelMessages msgs users => parseBatch msgs users peerID
  | .otherResult => []

/-- tg.InputPeerClass values the code constructs. -/
inductive InputPeer where
  | user (userID : Int) (accessHash : Int)
  | channel (channelID : Int) (accessHash : Int)
  | chat (chatID : Int)
deriving DecidableEq

/-- The stored access_hash string, as the code distinguishes it: empty,
non-empty but not parsable by strconv.ParseInt, or a parsable integer. -/
inductive HashStr where
  | emptyHash
  | invalidHash
  | validHash (h : Int)
deriving DecidableEq

/-- The access hash used for a user peer: a parse failure or an empty string
falls back to the zero value. -/
def HashStr.userHashValue : HashStr → Int
  | .validHash h => h
  | _ => 0

/-- The Go test accessHash != "" on the stored string. -/
def HashStr.nonEmpty : HashStr → Bool
  | .emptyHash => false
  | _ => true

/-- The remote history endpoint (api.MessagesGetHistory), abstracted as a
function of the input peer and the limit. -/
def RemoteAPI : Type :=
  InputPeer → Int → Except String MessagesMessagesClass

/-- Issue one MessagesGetHistory call and parse the response. -/
def callHistory (api : RemoteAPI) (peer : InputPeer) (limit : Int) (peerID : Int) :
    Except String (List Message) :=
  match api peer limit with
  | .error e => .error e
  | .ok resp => .ok (parseMessagesResponse resp peerID)

/-- client.go getMessagesWithFallback: probe user-style, then channel-style,
then chat-style addressing, keeping the first response that succeeds. -/
def getMessagesWithFallback (api : RemoteAPI) (peerID : Int) (limit : Int) :
    Except String (List Message) :=
  match api (.user peerID 0) limit with
  | .ok resp => .ok (parseMessagesResponse resp peerID)
  | .error _ =>
    match api (.channel peerID 0) limit with
    | .ok resp => .ok (parseMessagesResponse resp peerID)
    | .error _ =>
      match api (.chat peerID) limit with
      | .ok resp => .ok (parseMessagesResponse resp peerID)
      | .error e => .error e

/-- client.go GetMessagesWithConvInfo: typed peer resolution by declared
conversation type, falling back to probing for unknown types. -/
def getMessagesWithConvInfo (api : RemoteAPI) (peerID : Int) (limit : Int)
    (convType : String) (accessHash : HashStr) : Except String (List Message) :=
  if convType = "user" ∨ convType = "bot" then
    callHistory api (.user peerID accessHash.userHashValue) limit peerID
  else if convType = "channel" then
    match accessHash with
    | .validHash h => callHistory api (.channel peerID h) limit peerID
    | .invalidHash => .error "channel requires valid access_hash"
    | .emptyHash => .error "channel requires access_hash"
  else if convType = "group" then
    match accessHash with
    | .validHash h => callHistory api (.channel peerID h) limit peerID
    | .invalidHash => .error "supergroup requires valid access_hash"
    | .emptyHash => callHistory api (.chat peerID) limit peerID
  else
    getMessagesWithFallback api peerID limit

/-! ## Stored messages and the channel watermark pass (database.go, main.go) -/

/-- The columns of a messages row consulted by the channel sync pass. -/
structure StoredMessage where
  userID : Int
  conversationID : Int
  messageID : Int
  timestamp : Int
deriving DecidableEq

/-- Insert a row into a list already ordered by descending timestamp. -/
def insertByTimestampDesc (m : StoredMessage) :
    List StoredMessage → List StoredMessage
  | [] => [m]
  | x :: xs =>
      if x.timestamp < m.timestamp then m :: x :: xs
      else x :: insertByTimestampDesc m xs

/-- Order rows by descending timestamp (the ORDER BY timestamp DESC of the
query; the order among equal timestamps is unspecified in SQLite and fixed
arbitrarily here). -/
def sortByTimestampDesc : List StoredMessage → List StoredMessage
  | [] => []
  | x :: xs => insertByTimestampDesc x (sortByTimestampDesc xs)

/-- database.go DB.GetMessagesByUserAndConversation: rows of the (user,
conversation) pair, ordered by timestamp descending, with limit and offset. -/
def getMessagesByUserAndConversation (db : List StoredMessage)
    (userID conversationID : Int) (limit offset : Nat) : List StoredMessage :=
  (((sortByTimestampDesc
      (db.filter fun m => m.userID == userID && m.conversationID == conversationID)).drop
    offset).take limit)

/-- models.Conversation fields consulted by the channel sync pass. -/
structure Conversation where
  id : Int
  userID : Int
  convType : String
  accessHash : HashStr
deriving DecidableEq

/-- main.go autoSyncUser lines 136-143: the watermark is the MessageID of the
head of GetMessagesByUserAndConversation(userID, conv.ID, 1, 0), or 0. -/
def channelOffsetID (db : List StoredMessage) (userID conversationID : Int) : Int :=
  match getMessagesByUserAndConversation db userID conversationID 1 0 with
  | [] => 0
  | m :: _ => m.messageID

/-- main.go autoSyncUser lines 154-169: stamp the user id and keep a fetched
message exactly when the watermark is 0 or its id strictly exceeds it. -/
def channelNewMessages (offsetID : Int) (userID : Int) (fetched : List Message) :
    List Message :=
  (fetched.map fun m => { m with userID := userID }).filter
    fun m => offsetID == 0 || decide (offsetID < m.messageID)

/-- One iteration of the channel sync loop for a single conversation: skip it
unless it is a channel or group with a non-empty access hash, read the
watermark, fetch up to 50 recent messages, and on a fetch error skip with no
saves. -/
def syncChannelConv (db : List StoredMessage) (api : RemoteAPI) (userID : Int)
    (conv : Conversation) : List Message :=
  if (conv.convType = "channel" ∨ conv.convType = "group") ∧
      conv.accessHash.nonEmpty = true then
    match getMessagesWithConvInfo api conv.id 50 conv.convType conv.accessHash with
    | .error _ => []
    | .ok msgs => channelNewMessages (channelOffsetID db userID conv.id) userID msgs
  else []

/-- database.go DB.SaveMessage as seen by later watermark reads: INSERT OR
REPLACE keyed on (user_id, conversation_id, message_id). -/
def upsertStored (db : List StoredMessage) (m : Message) : List StoredMessage :=
  (db.filter fun s =>
      !(s.userID == m.userID && s.conversationID == m.conversationID &&
        s.messageID == m.messageID)) ++
    [{ userID := m.userID, conversationID := m.conversationID,
       messageID := m.messageID, timestamp := m.timestamp }]

/-- Save a batch of fetched messages in order. -/
def saveFetched (db : List StoredMessage) (msgs : List Message) : List StoredMessage :=
  msgs.foldl upsertStored db

/-- The whole channel sync goroutine body over the conversation listing,
threading the saved rows and collecting every message saved. -/
def channelSyncPass (api : RemoteAPI) (userID : Int) :
    List StoredMessage → List Conversation → List StoredMessage × List Message
  | db, [] => (db, [])
  | db, c :: cs =>
      let saved := syncChannelConv db api userID c
      let out := channelSyncPass api userID (saveFetched db saved) cs
      (out.1, saved ++ out.2)

/-! ## Incremental diff branch (client.go GetUpdates, main.go autoSyncUser) -/

/-- The fields of tg.UpdatesDifference consumed downstream. -/
structure UpdatesDifference where
  newMessages : List MessageClass
  users : List UserClass
  state : UpdatesState
deriving DecidableEq

/-- tg.UpdatesDifferenceClass responses of updates.getDifference. -/
inductive DifferenceClass where
  | difference (newMessages : List MessageClass) (users : List UserClass)
      (state : UpdatesState)
  | slice (newMessages : List MessageClass) (users : List UserClass)
      (intermediateState : UpdatesState)
  | differenceEmpty (date seq : Int)
  | otherDifference
deriving DecidableEq

/-- client.go Client.GetUpdates: pass errors through, flatten a slice using
its intermediate state, and turn an empty difference into an empty batch whose
state is pts 0, qts 0, the response date, seq 0. -/
def getUpdatesResult : Except String DifferenceClass →
    Except String UpdatesDifference
  | .error e => .error e
  | .ok (.difference msgs users st) => .ok ⟨msgs, users, st⟩
  | .ok (.slice msgs users st) => .ok ⟨msgs, users, st⟩
  | .ok (.differenceEmpty d _) => .ok ⟨[], [], ⟨0, 0, d, 0⟩⟩
  | .ok .otherDifference => .error "unexpected updates type"

/-- client.go ParseUpdatesMessages: the conversation id taken from PeerID. -/
def conversationIDOfPeer : Option Peer → Int
  | some (.user uid) => uid
  | some (.chat cid) => cid
  | some (.channel chid) => chid
  | none => 0

/-- client.go Client.ParseUpdatesMessages. -/
def parseUpdatesMessages (diff : UpdatesDifference) (userID : Int) : List Message :=
  diff.newMessages.filterMap fun mc =>
    match mc with
    | .message m =>
        some { parseMessageWithUsers m diff.users with
               userID := userID,
               conversationID := conversationIDOfPeer m.peerID }
    | .otherMessage => none

/-- What the incremental branch leaves behind: the saved batch and the cursor. -/
structure IncrementalOutcome where
  savedMessages : List Message
  cursor : UpdatesState
deriving DecidableEq

/-- main.go autoSyncUser lines 97-121: the incremental branch. On a diff
error nothing is saved and the cursor is untouched; otherwise the parsed new
messages are saved and the response state replaces the stored cursor exactly
when its pts or date is positive. -/
def incrementalSync (stored : UpdatesState) (userID : Int)
    (resp : Except String DifferenceClass) : IncrementalOutcome :=
  match getUpdatesResult resp with
  | .error _ => { savedMessages := [], cursor := stored }
  | .ok diff =>
      let msgs := parseUpdatesMessages diff userID
      if 0 < diff.state.pts ∨ 0 < diff.state.date then
        { savedMessages := msgs, cursor := diff.state }
      else
        { savedMessages := msgs, cursor := stored }

/-! ## Periodic scheduler tick (main.go lines 224-263) -/

/-- The user fields the tick loop consults. -/
structure SchedUser where
  id : Int
  isActive : Bool
deriving DecidableEq

/-- The per-tick environment: whether an active auth session row exists for a
user, whether Connect succeeds, and the IsAuthenticated liveness probe. -/
structure TickEnv where
  sessionFor : Int → Bool
  connectOk : Int → Bool
  live : Int → Bool

/-- The observable actions of one user iteration of the tick loop. -/
inductive TickEvent where
  | markedInactive (userID : Int)
  | synced (userID : Int)
deriving DecidableEq

/-- One iteration of the periodic tick loop: skip inactive users, skip when no
session or Connect fails, mark the user inactive when the liveness probe
fails, otherwise run the sync pass. Every branch continues the loop. -/
def processUser (env : TickEnv) (u : SchedUser) : List TickEvent :=
  if u.isActive = false then []
  else if env.sessionFor u.id = false then []
  else if env.connectOk u.id = false then []
  else if env.live u.id = false then [.markedInactive u.id]
  else [.synced u.id]

/-- The whole tick over the user listing fetched at its start. -/
def runTick (env : TickEnv) : List SchedUser → List TickEvent
  | [] => []
  | u :: us => processUser env u ++ runTick env us

/-! ## Claim-side definitions (stated from the spec wording, for comparison) -/

/-- Modelled from the spec: the watermark as the spec words it, the maximum
locally stored remoteMessageID for the (user, conversation) pair, 0 if none. -/
def claimedWatermark (db : List StoredMessage) (userID conversationID : Int) : Int :=
  ((db.filter fun m => m.userID == userID && m.conversationID == conversationID).map
    fun m => m.messageID).foldl max 0

/-- The plain PhotoSize variants of a size list, in order. -/
def photoVariants (sizes : List PhotoSizeClass) : List PhotoSizeVariant :=
  sizes.filterMap fun s =>
    match s with
    | .photoSize v => some v
    | .otherSize => none

/-- The area of a size variant. -/
def variantArea (v : PhotoSizeVariant) : Int := v.w * v.h

/-- Modelled from the spec: the variant the spec says is selected, the
earliest plain size variant whose area is greatest. -/
def claimedBestVariant (sizes : List PhotoSizeClass) : Option PhotoSizeVariant :=
  (photoVariants sizes).find? fun v =>
    (photoVariants sizes).all fun u => decide (variantArea u ≤ variantArea v)

/-! ## Claim theorems -/

/-- C10: reading the stored cursor for a user with no stored row yields the
all-zero cursor with no error, indistinguishable from an explicitly stored
all-zero cursor, and both select the bootstrap pass. -/
theorem c10_missing_cursor_bootstrap :
    getUpdatesState none = ⟨0, 0, 0, 0⟩ ∧
    getUpdatesState none = getUpdatesState (some ⟨0, 0, 0, 0⟩) ∧
    syncModeFor none = SyncMode.bootstrap ∧
    syncModeFor (some ⟨0, 0, 0, 0⟩) = SyncMode.bootstrap := by
  decide

/-- C7 counterexample: the stored cursor with pts = qts = date = 0 but
seq = 5 is not the all-zero cursor, yet the pass still runs bootstrap, so
bootstrap does not hold only for the all-zero value. -/
theorem c7_counterexample :
    syncModeFor (some ⟨0, 0, 0, 5⟩) = SyncMode.bootstrap ∧
    (⟨0, 0, 0, 5⟩ : UpdatesState) ≠ ⟨0, 0, 0, 0⟩ := by
  decide

/-- C7 amended: a sync pass runs bootstrap if and only if the stored cursor
has pts = 0, qts = 0 and date = 0; the seq field is not consulted. -/
theorem c7_bootstrap_selection (row : Option UpdatesState) :
    syncModeFor row = SyncMode.bootstrap ↔
      ((getUpdatesState row).pts = 0 ∧ (getUpdatesState row).qts = 0 ∧
        (getUpdatesState row).date = 0) := by
  have hb : syncModeFor row = SyncMode.bootstrap ↔
      selectsBootstrap (getUpdatesState row) = true := by
    unfold syncModeFor
    split
    · simp [*]
    · simp [*]
  rw [hb]
  simp [selectsBootstrap, Bool.and_eq_true, beq_iff_eq, and_assoc]

/-- C2: during an incremental pass the candidate cursor is persisted only if
its pts or date is positive; a diff response whose candidate state is the
all-zero cursor leaves the stored cursor unchanged. -/
theorem c2_empty_state_guard (stored : UpdatesState) (userID : Int)
    (resp : Except String DifferenceClass) :
    (∀ diff, getUpdatesResult resp = .ok diff → diff.state = ⟨0, 0, 0, 0⟩ →
      (incrementalSync stored userID resp).cursor = stored) ∧
    ((incrementalSync stored userID resp).cursor ≠ stored →
      ∃ diff, getUpdatesResult resp = .ok diff ∧
        (0 < diff.state.pts ∨ 0 < diff.state.date) ∧
        (incrementalSync stored userID resp).cursor = diff.state) := by
  cases h : getUpdatesResult resp with
  | error e =>
      refine ⟨fun diff hd => by simp [h] at hd, fun hne => absurd ?_ hne⟩
      simp [incrementalSync, h]
  | ok diff =>
      by_cases hm : 0 < diff.state.pts ∨ 0 < diff.state.date
      · refine ⟨fun d hd hz => ?_,
          fun _ => ⟨diff, rfl, hm, by simp [incrementalSync, h, hm]⟩⟩
        injection hd with hdd
        subst hdd
        rw [hz] at hm
        exact absurd hm (by decide)
      · refine ⟨fun _ _ _ => by simp [incrementalSync, h, hm],
          fun hne => absurd ?_ hne⟩
        simp [incrementalSync, h, hm]

/-- C2 witness: a concrete all-zero candidate state leaves a concrete stored
cursor unchanged. -/
theorem c2_witness :
    (incrementalSync ⟨8, 1, 9, 2⟩ 1
        (.ok (.difference [] [] ⟨0, 0, 0, 0⟩))).cursor = ⟨8, 1, 9, 2⟩ :=
  (c2_empty_state_guard ⟨8, 1, 9, 2⟩ 1
      (.ok (.difference [] [] ⟨0, 0, 0, 0⟩))).1 ⟨[], [], ⟨0, 0, 0, 0⟩⟩ rfl rfl

/-- C1 counterexample: with stored cursor pts 100 and date 50, an
empty-difference response with date 60 is converted to the candidate state
pts 0, qts 0, date 60, seq 0, which passes the nonzero guard and is
persisted, so the persisted pts regresses from 100 to 0. -/
theorem c1_counterexample :
    (incrementalSync ⟨100, 3, 50, 7⟩ 1
        (.ok (.differenceEmpty 60 2))).cursor = ⟨0, 0, 60, 0⟩ ∧
    ¬ ((⟨100, 3, 50, 7⟩ : UpdatesState).pts ≤
        (incrementalSync ⟨100, 3, 50, 7⟩ 1
          (.ok (.differenceEmpty 60 2))).cursor.pts) := by
  decide

/-- C1 amended: the incremental branch performs no comparison against the
stored cursor; pts and date are non-decreasing provided every candidate state
that passes the nonzero guard dominates the stored cursor. -/
theorem c1_cursor_monotone (stored : UpdatesState) (userID : Int)
    (resp : Except String DifferenceClass)
    (hmono : ∀ diff, getUpdatesResult resp = .ok diff →
      (0 < diff.state.pts ∨ 0 < diff.state.date) →
      stored.pts ≤ diff.state.pts ∧ stored.date ≤ diff.state.date) :
    stored.pts ≤ (incrementalSync stored userID resp).cursor.pts ∧
    stored.date ≤ (incrementalSync stored userID resp).cursor.date := by
  cases h : getUpdatesResult resp with
  | error e => simp [incrementalSync, h]
  | ok diff =>
      by_cases hm : 0 < diff.state.pts ∨ 0 < diff.state.date
      · have hd := hmono diff h hm
        simp [incrementalSync, h, hm, hd.1, hd.2]
      · simp [incrementalSync, h, hm]

/-- C1 witness: a concrete dominating candidate state advances a concrete
stored cursor without regression. -/
theorem c1_witness :
    (⟨1, 0, 1, 0⟩ : UpdatesState).pts ≤
      (incrementalSync ⟨1, 0, 1, 0⟩ 1
        (.ok (.difference [] [] ⟨5, 0, 9, 0⟩))).cursor.pts ∧
    (⟨1, 0, 1, 0⟩ : UpdatesState).date ≤
      (incrementalSync ⟨1, 0, 1, 0⟩ 1
        (.ok (.difference [] [] ⟨5, 0, 9, 0⟩))).cursor.date :=
  c1_cursor_monotone ⟨1, 0, 1, 0⟩ 1 (.ok (.difference [] [] ⟨5, 0, 9, 0⟩))
    (by
      intro diff h hm
      injection h with h2
      subst h2
      exact ⟨by decide, by decide⟩)

/-- Ticks distribute over an append of the user listing. -/
theorem runTick_append (env : TickEnv) (l1 l2 : List SchedUser) :
    runTick env (l1 ++ l2) = runTick env l1 ++ runTick env l2 := by
  induction l1 with
  | nil => simp [runTick]
  | cons u us ih => simp [runTick, ih]

/-- A user in the listing whose iteration yields an event contributes it to
the tick. -/
theorem mem_runTick_of_mem (env : TickEnv) (l : List SchedUser) (b : SchedUser)
    (ev : TickEvent) (hb : b ∈ l) (hp : processUser env b = [ev]) :
    ev ∈ runTick env l := by
  induction l with
  | nil => cases hb
  | cons u us ih =>
      rcases List.mem_cons.mp hb with hbu | hbu
      · subst hbu
        simp [runTick, hp]
      · simp only [runTick, List.mem_append]
        exact Or.inr (ih hbu)

/-- C9: within one periodic tick, a user failing the liveness probe is marked
inactive and skipped without aborting the tick, and every later user in the
same tick that is active, has a session, connects and is live still gets its
sync pass. -/
theorem c9_scheduler_isolation (env : TickEnv) (pre post : List SchedUser)
    (a : SchedUser) (hactive : a.isActive = true)
    (hsession : env.sessionFor a.id = true) (hconnect : env.connectOk a.id = true)
    (hlive : env.live a.id = false) :
    runTick env (pre ++ a :: post) =
      runTick env pre ++ TickEvent.markedInactive a.id :: runTick env post ∧
    (∀ b, b ∈ post → b.isActive = true → env.sessionFor b.id = true →
      env.connectOk b.id = true → env.live b.id = true →
      TickEvent.synced b.id ∈ runTick env (pre ++ a :: post)) := by
  have hpa : processUser env a = [TickEvent.markedInactive a.id] := by
    simp [processUser, hactive, hsession, hconnect, hlive]
  have hmain : runTick env (pre ++ a :: post) =
      runTick env pre ++ TickEvent.markedInactive a.id :: runTick env post := by
    rw [runTick_append]
    simp [runTick, hpa]
  refine ⟨hmain, fun b hb hb1 hb2 hb3 hb4 => ?_⟩
  have hpb : processUser env b = [TickEvent.synced b.id] := by
    simp [processUser, hb1, hb2, hb3, hb4]
  exact mem_runTick_of_mem env _ b _ (by simp [hb]) hpb

/-- A concrete tick environment where only user 1 fails the liveness probe. -/
def tickEnvW : TickEnv :=
  { sessionFor := fun _ => true, connectOk := fun _ => true,
    live := fun i => decide (i ≠ 1) }

/-- C9 witness: in a concrete three-user tick where the middle user fails
liveness, that user is marked inactive and the last user is still synced. -/
theorem c9_witness :
    runTick tickEnvW [⟨0, true⟩, ⟨1, true⟩, ⟨2, true⟩] =
      runTick tickEnvW [⟨0, true⟩] ++
        TickEvent.markedInactive 1 :: runTick tickEnvW [⟨2, true⟩] ∧
    TickEvent.synced 2 ∈ runTick tickEnvW [⟨0, true⟩, ⟨1, true⟩, ⟨2, true⟩] := by
  have h := c9_scheduler_isolation tickEnvW [⟨0, true⟩] [⟨2, true⟩] ⟨1, true⟩
    rfl rfl rfl (by decide)
  exact ⟨h.1, h.2 ⟨2, true⟩ (by decide) rfl rfl rfl (by decide)⟩

/-- C5: for a conversation whose declared type is none of user, bot, channel
or group, message resolution uses the probe fallback, which attempts
user-style addressing, then channel-style, then chat-style, returns the
messages of the first attempt that succeeds, and errors only when all three
attempts fail. -/
theorem c5_unknown_type_fallback (api : RemoteAPI) (peerID limit : Int)
    (convType : String) (accessHash : HashStr)
    (hu : convType ≠ "user") (hb : convType ≠ "bot") (hc : convType ≠ "channel")
    (hg : convType ≠ "group") :
    getMessagesWithConvInfo api peerID limit convType accessHash =
      getMessagesWithFallback api peerID limit ∧
    (∀ resp, api (.user peerID 0) limit = .ok resp →
      getMessagesWithFallback api peerID limit =
        .ok (parseMessagesResponse resp peerID)) ∧
    (∀ e resp, api (.user peerID 0) limit = .error e →
      api (.channel peerID 0) limit = .ok resp →
      getMessagesWithFallback api peerID limit =
        .ok (parseMessagesResponse resp peerID)) ∧
    (∀ e1 e2 resp, api (.user peerID 0) limit = .error e1 →
      api (.channel peerID 0) limit = .error e2 →
      api (.chat peerID) limit = .ok resp →
      getMessagesWithFallback api peerID limit =
        .ok (parseMessagesResponse resp peerID)) ∧
    (∀ e1 e2 e3, api (.user peerID 0) limit = .error e1 →
      api (.channel peerID 0) limit = .error e2 →
      api (.chat peerID) limit = .error e3 →
      getMessagesWithFallback api peerID limit = .error e3) := by
  refine ⟨?_, ?_, ?_, ?_, ?_⟩
  · simp [getMessagesWithConvInfo, hu, hb, hc, hg]
  · intro resp h1
    simp [getMessagesWithFallback, h1]
  · intro e resp h1 h2
    simp [getMessagesWithFallback, h1, h2]
  · intro e1 e2 resp h1 h2 h3
    simp [getMessagesWithFallback, h1, h2, h3]
  · intro e1 e2 e3 h1 h2 h3
    simp [getMessagesWithFallback, h1, h2, h3]

/-- A concrete remote where user-style addressing fails, channel-style
succeeds and chat-style fails. -/
def probeApiW : RemoteAPI := fun p _ =>
  match p with
  | .user _ _ => .error "peer user failure"
  | .channel _ _ => .ok (.channelMessages [] [])
  | .chat _ => .error "chat failure"

/-- C5 witness: on the concrete remote, the probe fallback returns the
channel-style result. -/
theorem c5_witness :
    getMessagesWithFallback probeApiW 42 50 =
      .ok (parseMessagesResponse (.channelMessages [] []) 42) :=
  (c5_unknown_type_fallback probeApiW 42 50 "unknown" .emptyHash (by decide)
      (by decide) (by decide) (by decide)).2.2.1 "peer user failure"
    (.channelMessages [] []) rfl rfl

/-- A conversation with an empty access hash contributes nothing to the
channel sync pass. -/
theorem syncChannelConv_empty (db : List StoredMessage) (api : RemoteAPI)
    (userID : Int) (c : Conversation) (hc : c.accessHash = HashStr.emptyHash) :
    syncChannelConv db api userID c = [] := by
  simp [syncChannelConv, hc, HashStr.nonEmpty]

/-- Removing a conversation with an empty access hash does not change the
channel sync pass. -/
theorem channelSyncPass_skip (api : RemoteAPI) (userID : Int) (c : Conversation)
    (hc : c.accessHash = HashStr.emptyHash) (db : List StoredMessage)
    (pre post : List Conversation) :
    channelSyncPass api userID db (pre ++ c :: post) =
      channelSyncPass api userID db (pre ++ post) := by
  induction pre generalizing db with
  | nil =>
      simp [channelSyncPass, syncChannelConv_empty db api userID c hc, saveFetched]
  | cons d ds ih =>
      simp [channelSyncPass, ih]

/-- C6: a channel conversation fails with an error when its access hash is
empty or unparsable; with a parsable hash both channel and group
conversations are addressed channel-style; a group with an empty hash is
addressed plain chat-style; and the channel watermark pass skips, without
failing, any channel or group conversation whose access hash is empty. -/
theorem c6_typed_peer_resolution (api : RemoteAPI) (peerID limit : Int) :
    (∀ hash, hash = HashStr.emptyHash ∨ hash = HashStr.invalidHash →
      ∃ e, getMessagesWithConvInfo api peerID limit "channel" hash = .error e) ∧
    (∀ h, getMessagesWithConvInfo api peerID limit "channel" (.validHash h) =
      callHistory api (.channel peerID h) limit peerID) ∧
    (∀ h, getMessagesWithConvInfo api peerID limit "group" (.validHash h) =
      callHistory api (.channel peerID h) limit peerID) ∧
    (getMessagesWithConvInfo api peerID limit "group" .emptyHash =
      callHistory api (.chat peerID) limit peerID) ∧
    (∀ db userID c, c.accessHash = HashStr.emptyHash →
      syncChannelConv db api userID c = []) ∧
    (∀ db userID c pre post, c.accessHash = HashStr.emptyHash →
      channelSyncPass api userID db (pre ++ c :: post) =
        channelSyncPass api userID db (pre ++ post)) := by
  refine ⟨?_, fun h => rfl, fun h => rfl, rfl, ?_, ?_⟩
  · rintro hash (rfl | rfl)
    · exact ⟨"channel requires access_hash", rfl⟩
    · exact ⟨"channel requires valid access_hash", rfl⟩
  · intro db userID c hc
    exact syncChannelConv_empty db api userID c hc
  · intro db userID c pre post hc
    exact channelSyncPass_skip api userID c hc db pre post

/-- C6 witness: on the concrete remote, a channel with an empty access hash
errors out. -/
theorem c6_witness :
    ∃ e, getMessagesWithConvInfo probeApiW 9 50 "channel" .emptyHash = .error e :=
  (c6_typed_peer_resolution probeApiW 9 50).1 .emptyHash (Or.inl rfl)

/-- C4 counterexample: a raw message with empty text and a video document
attribute is classified as video, but its body is not the bare placeholder
"[Video]": the always-derived default media name is appended. -/
theorem c4_counterexample :
    (parseMessageWithUsers
        { id := 1, message := "",
          media := some (.document (.document ⟨10, 20, [.video]⟩)),
          fromID := none, peerID := none, date := 0 } []).messageType = "video" ∧
    (parseMessageWithUsers
        { id := 1, message := "",
          media := some (.document (.document ⟨10, 20, [.video]⟩)),
          fromID := none, peerID := none, date := 0 } []).content ≠ "[Video]" := by
  decide

/-- C4 amended: with empty text and exactly a video attribute the normalizer
yields kind video and body "[Video]" followed by the annotated default media
name suffix; with text "see attached" and exactly a filename attribute
"report.pdf" it yields kind document and body "see attached" followed by the
annotated suffix naming "report.pdf". -/
theorem c4_document_normalization (docID docSize msgID msgDate : Int)
    (users : List UserClass) :
    (parseMessageWithUsers
        { id := msgID, message := "",
          media := some (.document (.document ⟨docID, docSize, [.video]⟩)),
          fromID := none, peerID := none, date := msgDate } users).messageType =
      "video" ∧
    (parseMessageWithUsers
        { id := msgID, message := "",
          media := some (.document (.document ⟨docID, docSize, [.video]⟩)),
          fromID := none, peerID := none, date := msgDate } users).content =
      "[Video]\n📁 video.file" ∧
    (parseMessageWithUsers
        { id := msgID, message := "see attached",
          media := some (.document (.document
            ⟨docID, docSize, [.filename "report.pdf"]⟩)),
          fromID := none, peerID := none, date := msgDate } users).messageType =
      "document" ∧
    (parseMessageWithUsers
        { id := msgID, message := "see attached",
          media := some (.document (.document
            ⟨docID, docSize, [.filename "report.pdf"]⟩)),
          fromID := none, peerID := none, date := msgDate } users).content =
      "see attached\n📁 report.pdf" :=
  ⟨rfl, rfl, rfl, rfl⟩

/-- Stored rows for the concrete watermark example: one message with id 100. -/
def channelDbW : List StoredMessage := [⟨1, 5, 100, 10⟩]

/-- The conversation of the concrete watermark example. -/
def channelConvW : Conversation := ⟨5, 1, "channel", .validHash 77⟩

/-- A remote returning five messages with ids 98 to 102. -/
def channelApiW : RemoteAPI := fun _ _ =>
  .ok (.channelMessages
    [.message ⟨98, "a", none, none, none, 20⟩,
     .message ⟨99, "b", none, none, none, 21⟩,
     .message ⟨100, "c", none, none, none, 22⟩,
     .message ⟨101, "d", none, none, none, 23⟩,
     .message ⟨102, "e", none, none, none, 24⟩] [])

/-- C3 amended: the watermark of the channel resync is the remoteMessageID of
the stored (user, conversation) message with the latest timestamp (0 if none
stored), not necessarily the stored maximum id; a fetched message is upserted
exactly when that watermark is 0 or its id strictly exceeds it; and the
concrete example with watermark 100 and fetched ids 98 to 102 upserts exactly
101 and 102. -/
theorem c3_watermark (db : List StoredMessage) (api : RemoteAPI) (userID : Int)
    (c : Conversation)
    (hq : c.convType = "channel" ∨ c.convType = "group")
    (hh : c.accessHash.nonEmpty = true) (msgs : List Message)
    (hok : getMessagesWithConvInfo api c.id 50 c.convType c.accessHash = .ok msgs) :
    (∀ m, m ∈ syncChannelConv db api userID c ↔
      (∃ m0 ∈ msgs, { m0 with userID := userID } = m) ∧
        (channelOffsetID db userID c.id = 0 ∨
          channelOffsetID db userID c.id < m.messageID)) ∧
    (syncChannelConv channelDbW channelApiW 1 channelConvW).map
        (fun m => m.messageID) = [101, 102] := by
  constructor
  · intro m
    have hsync : syncChannelConv db api userID c =
        channelNewMessages (channelOffsetID db userID c.id) userID msgs := by
      unfold syncChannelConv
      rw [if_pos (And.intro hq hh), hok]
    rw [hsync]
    simp only [channelNewMessages, List.mem_filter, List.mem_map,
      Bool.or_eq_true, beq_iff_eq, decide_eq_true_eq]
  · decide

/-- C3 witness: the concrete example evaluated through the amended theorem. -/
theorem c3_witness :
    (syncChannelConv channelDbW channelApiW 1 channelConvW).map
        (fun m => m.messageID) = [101, 102] :=
  (c3_watermark channelDbW channelApiW 1 channelConvW (Or.inl rfl) rfl
    (parseMessagesResponse (.channelMessages
      [.message ⟨98, "a", none, none, none, 20⟩,
       .message ⟨99, "b", none, none, none, 21⟩,
       .message ⟨100, "c", none, none, none, 22⟩,
       .message ⟨101, "d", none, none, none, 23⟩,
       .message ⟨102, "e", none, none, none, 24⟩] []) 5) rfl).2

/-- Stored rows whose timestamp order disagrees with the id order: id 200 at
timestamp 10, id 100 at timestamp 20. -/
def invDbW : List StoredMessage := [⟨1, 5, 200, 10⟩, ⟨1, 5, 100, 20⟩]

/-- A remote returning one message with id 150. -/
def invApiW : RemoteAPI := fun _ _ =>
  .ok (.channelMessages [.message ⟨150, "x", none, none, none, 30⟩] [])

/-- The conversation of the inverted-timestamp example. -/
def invConvW : Conversation := ⟨5, 1, "channel", .validHash 7⟩

/-- C3 counterexample: the stored maximum remoteMessageID is 200, so under
the claim the fetched message with id 150 must be discarded, but the code
reads watermark 100 (the id of the most recent row by timestamp) and upserts
it. -/
theorem c3_counterexample :
    claimedWatermark invDbW 1 5 = 200 ∧
    channelOffsetID invDbW 1 5 = 100 ∧
    ¬ ((200 : Int) = 0 ∨ (200 : Int) < 150) ∧
    (syncChannelConv invDbW invApiW 1 invConvW).map
        (fun m => m.messageID) = [150] := by
  decide

/-- The running maximum of the size scan never decreases. -/
theorem selectLargest_le_snd (l : List PhotoSizeClass) :
    ∀ b m, m ≤ (selectLargest l (b, m)).2 := by
  induction l with
  | nil =>
      intro b m
      simp [selectLargest]
  | cons s rest ih =>
      intro b m
      cases s with
      | photoSize v =>
          by_cases hgt : v.w * v.h > m
          · simp only [selectLargest, if_pos hgt]
            exact le_trans (le_of_lt hgt) (ih _ _)
          · simp only [selectLargest, if_neg hgt]
            exact ih _ _
      | otherSize =>
          simp only [selectLargest]
          exact ih _ _

/-- The final running maximum bounds the area of every plain size variant. -/
theorem selectLargest_mem_le (l : List PhotoSizeClass) :
    ∀ b m u, PhotoSizeClass.photoSize u ∈ l →
      u.w * u.h ≤ (selectLargest l (b, m)).2 := by
  induction l with
  | nil =>
      intro b m u hu
      cases hu
  | cons s rest ih =>
      intro b m u hu
      cases s with
      | photoSize v =>
          by_cases hgt : v.w * v.h > m
          · simp only [selectLargest, if_pos hgt]
            rcases List.mem_cons.mp hu with heq | hmem
            · have hv : u = v := by injection heq
              subst hv
              exact selectLargest_le_snd rest (some u) (u.w * u.h)
            · exact ih _ _ u hmem
          · simp only [selectLargest, if_neg hgt]
            rcases List.mem_cons.mp hu with heq | hmem
            · have hv : u = v := by injection heq
              subst hv
              exact le_trans (not_lt.mp hgt) (selectLargest_le_snd rest b m)
            · exact ih _ _ u hmem
      | otherSize =>
          simp only [selectLargest]
          rcases List.mem_cons.mp hu with heq | hmem
          · cases heq
          · exact ih _ _ u hmem

/-- With every remaining area at most the running maximum, the scan changes
nothing. -/
theorem selectLargest_const_of_le (l : List PhotoSizeClass) :
    ∀ b m, (∀ u, PhotoSizeClass.photoSize u ∈ l → u.w * u.h ≤ m) →
      selectLargest l (b, m) = (b, m) := by
  induction l with
  | nil =>
      intro b m hle
      simp [selectLargest]
  | cons s rest ih =>
      intro b m hle
      cases s with
      | photoSize v =>
          have hv : v.w * v.h ≤ m := hle v (List.mem_cons_self _ _)
          simp only [selectLargest, if_neg (not_lt.mpr hv)]
          exact ih b m (fun u hu => hle u (List.mem_cons_of_mem _ hu))
      | otherSize =>
          simp only [selectLargest]
          exact ih b m (fun u hu => hle u (List.mem_cons_of_mem _ hu))

/-- The final running maximum is the initial one or the area of some plain
size variant of the list. -/
theorem selectLargest_snd_attained (l : List PhotoSizeClass) :
    ∀ b m, (selectLargest l (b, m)).2 = m ∨
      ∃ u, PhotoSizeClass.photoSize u ∈ l ∧ u.w * u.h = (selectLargest l (b, m)).2 := by
  induction l with
  | nil =>
      intro b m
      left
      simp [selectLargest]
  | cons s rest ih =>
      intro b m
      cases s with
      | photoSize v =>
          by_cases hgt : v.w * v.h > m
          · simp only [selectLargest, if_pos hgt]
            rcases ih (some v) (v.w * v.h) with h | ⟨u, hu, hue⟩
            · exact Or.inr ⟨v, List.mem_cons_self _ _, h.symm⟩
            · exact Or.inr ⟨u, List.mem_cons_of_mem _ hu, hue⟩
          · simp only [selectLargest, if_neg hgt]
            rcases ih b m with h | ⟨u, hu, hue⟩
            · exact Or.inl h
            · exact Or.inr ⟨u, List.mem_cons_of_mem _ hu, hue⟩
      | otherSize =>
          simp only [selectLargest]
          rcases ih b m with h | ⟨u, hu, hue⟩
          · exact Or.inl h
          · exact Or.inr ⟨u, List.mem_cons_of_mem _ hu, hue⟩

/-- A cons of a plain size variant prepends it to the variant listing. -/
theorem photoVariants_cons_photo (v : PhotoSizeVariant) (rest : List PhotoSizeClass) :
    photoVariants (.photoSize v :: rest) = v :: photoVariants rest := rfl

/-- A cons of a non-plain size leaves the variant listing unchanged. -/
theorem photoVariants_cons_other (rest : List PhotoSizeClass) :
    photoVariants (.otherSize :: rest) = photoVariants rest := rfl

/-- Membership transfer between the size list and its variant listing. -/
theorem mem_photoVariants (sizes : List PhotoSizeClass) (u : PhotoSizeVariant) :
    u ∈ photoVariants sizes ↔ PhotoSizeClass.photoSize u ∈ sizes := by
  induction sizes with
  | nil => simp [photoVariants]
  | cons s rest ih =>
      cases s with
      | photoSize v =>
          rw [photoVariants_cons_photo]
          simp [ih]
      | otherSize =>
          rw [photoVariants_cons_other]
          simp [ih]

/-- Two searches with predicates agreeing on the list members coincide. -/
theorem find?_congr_mem {α : Type} (l : List α) (p q : α → Bool)
    (h : ∀ a ∈ l, p a = q a) : l.find? p = l.find? q := by
  induction l with
  | nil => rfl
  | cons a rest ih =>
      have ha := h a (List.mem_cons_self a rest)
      simp only [List.find?, ha]
      cases hqa : q a with
      | true => rfl
      | false => exact ih (fun x hx => h x (List.mem_cons_of_mem a hx))

/-- Once the running maximum strictly exceeds its initial value, the kept
variant is the first one whose area reaches the final maximum. -/
theorem selectLargest_fst_find (l : List PhotoSizeClass) :
    ∀ b m M, (selectLargest l (b, m)).2 = M → m < M →
      (selectLargest l (b, m)).1 =
        (photoVariants l).find? (fun u => decide (M ≤ u.w * u.h)) := by
  induction l with
  | nil =>
      intro b m M hM hm
      simp only [selectLargest] at hM
      subst hM
      exact absurd hm (lt_irrefl m)
  | cons s rest ih =>
      intro b m M hM hm
      cases s with
      | photoSize v =>
          by_cases hgt : v.w * v.h > m
          · have hM2 : (selectLargest rest (some v, v.w * v.h)).2 = M := by
              simpa only [selectLargest, if_pos hgt] using hM
            by_cases hge : M ≤ v.w * v.h
            · have hle : v.w * v.h ≤ M :=
                hM2 ▸ selectLargest_le_snd rest (some v) (v.w * v.h)
              have hub : ∀ u, PhotoSizeClass.photoSize u ∈ rest →
                  u.w * u.h ≤ v.w * v.h := by
                intro u hu
                exact le_trans (hM2 ▸ selectLargest_mem_le rest (some v)
                  (v.w * v.h) u hu) (le_trans hge (le_refl _))
              have hconst := selectLargest_const_of_le rest (some v) (v.w * v.h) hub
              rw [photoVariants_cons_photo]
              simp only [selectLargest, if_pos hgt, hconst, List.find?,
                decide_eq_true hge]
            · have hlt : v.w * v.h < M := lt_of_not_ge hge
              rw [photoVariants_cons_photo]
              simp only [selectLargest, if_pos hgt, List.find?,
                decide_eq_false hge]
              exact ih (some v) (v.w * v.h) M hM2 hlt
          · have hM2 : (selectLargest rest (b, m)).2 = M := by
              simpa only [selectLargest, if_neg hgt] using hM
            have hvlt : ¬ (M ≤ v.w * v.h) :=
              not_le.mpr (lt_of_le_of_lt (not_lt.mp hgt) hm)
            rw [photoVariants_cons_photo]
            simp only [selectLargest, if_neg hgt, List.find?,
              decide_eq_false hvlt]
            exact ih b m M hM2 hm
      | otherSize =>
          have hM2 : (selectLargest rest (b, m)).2 = M := by
            simpa only [selectLargest] using hM
          rw [photoVariants_cons_other]
          simp only [selectLargest]
          exact ih b m M hM2 hm

/-- When the spec-side selection picks a variant of positive area, the scan
of getPhotoURL keeps exactly that variant. -/
theorem selectLargest_claimed (sizes : List PhotoSizeClass) (v : PhotoSizeVariant)
    (hbest : claimedBestVariant sizes = some v) (hpos : 0 < variantArea v) :
    (selectLargest sizes (none, 0)).1 = some v := by
  have hvmem : v ∈ photoVariants sizes := List.mem_of_find?_eq_some hbest
  obtain ⟨M, hM⟩ : ∃ M, (selectLargest sizes (none, 0)).2 = M := ⟨_, rfl⟩
  have hvM : variantArea v ≤ M :=
    hM ▸ selectLargest_mem_le sizes none 0 v ((mem_photoVariants sizes v).mp hvmem)
  have h0M : (0 : Int) < M := lt_of_lt_of_le hpos hvM
  have hfst := selectLargest_fst_find sizes none 0 M hM h0M
  rcases selectLargest_snd_attained sizes none 0 with hz | ⟨u0, hu0, hu0e⟩
  · rw [hM] at hz
    subst hz
    exact absurd h0M (lt_irrefl 0)
  · have hu0M : u0.w * u0.h = M := by rw [hu0e, hM]
    have hcong : (photoVariants sizes).find? (fun u => decide (M ≤ u.w * u.h)) =
        (photoVariants sizes).find? (fun u =>
          (photoVariants sizes).all fun w => decide (variantArea w ≤ variantArea u)) := by
      apply find?_congr_mem
      intro a ha
      by_cases hge : M ≤ a.w * a.h
      · have hall : ∀ w ∈ photoVariants sizes, variantArea w ≤ variantArea a := by
          intro w hw
          exact le_trans (hM ▸ selectLargest_mem_le sizes none 0 w
            ((mem_photoVariants sizes w).mp hw)) hge
        rw [decide_eq_true hge]
        have : ((photoVariants sizes).all fun w =>
            decide (variantArea w ≤ variantArea a)) = true := by
          rw [List.all_eq_true]
          intro w hw
          exact decide_eq_true (hall w hw)
        rw [this]
      · have hnall : ((photoVariants sizes).all fun w =>
            decide (variantArea w ≤ variantArea a)) = false := by
          rcases Bool.eq_false_or_eq_true ((photoVariants sizes).all fun w =>
              decide (variantArea w ≤ variantArea a)) with ht | hf
          case inr => exact hf
          case inl =>
            exfalso
            have hu0a := List.all_eq_true.mp ht u0
              ((mem_photoVariants sizes u0).mpr hu0)
            have : variantArea u0 ≤ variantArea a := of_decide_eq_true hu0a
            exact hge (le_trans (le_of_eq hu0M.symm) this)
        rw [decide_eq_false hge, hnall]
    rw [hfst, hcong]
    exact hbest

/-- C8: a raw message carrying photo media is normalized with kind photo and,
when its text is empty, body "[Photo]"; provided some plain size variant has
positive width times height, the media reference names exactly the variant
the spec selects: the earliest one maximizing width times height. -/
theorem c8_photo_normalization (photoID msgID msgDate : Int)
    (sizes : List PhotoSizeClass) (text : String) (users : List UserClass)
    (v : PhotoSizeVariant) (hbest : claimedBestVariant sizes = some v)
    (hpos : 0 < variantArea v) :
    (parseMessageWithUsers
        { id := msgID, message := text,
          media := some (.photo (.photo ⟨photoID, sizes⟩)),
          fromID := none, peerID := none, date := msgDate } users).messageType =
      "photo" ∧
    (text = "" →
      (parseMessageWithUsers
        { id := msgID, message := text,
          media := some (.photo (.photo ⟨photoID, sizes⟩)),
          fromID := none, peerID := none, date := msgDate } users).content =
      "[Photo]") ∧
    (parseMessageWithUsers
        { id := msgID, message := text,
          media := some (.photo (.photo ⟨photoID, sizes⟩)),
          fromID := none, peerID := none, date := msgDate } users).mediaURL =
      "telegram://photo/" ++ toString photoID ++ "_" ++ toString v.size := by
  have hfst := selectLargest_claimed sizes v hbest hpos
  have hne : sizes.isEmpty = false := by
    cases hs : sizes with
    | nil =>
        rw [hs] at hbest
        simp [claimedBestVariant, photoVariants] at hbest
    | cons a l => rfl
  refine ⟨rfl, ?_, ?_⟩
  · intro ht
    subst ht
    rfl
  · show getPhotoURL ⟨photoID, sizes⟩ =
      "telegram://photo/" ++ toString photoID ++ "_" ++ toString v.size
    simp [getPhotoURL, hne, hfst]

/-- C8 witness: among two variants of equal area 6 the earlier one (byte size
111) wins the tie, and the produced media reference names it. -/
theorem c8_witness :
    claimedBestVariant [.photoSize ⟨2, 3, 111⟩, .photoSize ⟨3, 2, 222⟩] =
      some ⟨2, 3, 111⟩ ∧
    (parseMessageWithUsers
        { id := 4, message := "",
          media := some (.photo (.photo ⟨9,
            [.photoSize ⟨2, 3, 111⟩, .photoSize ⟨3, 2, 222⟩]⟩)),
          fromID := none, peerID := none, date := 0 } []).mediaURL =
      "telegram://photo/" ++ toString (9 : Int) ++ "_" ++
        toString ((⟨2, 3, 111⟩ : PhotoSizeVariant)).size :=
  ⟨by decide,
    (c8_photo_normalization 9 4 0 [.photoSize ⟨2, 3, 111⟩, .photoSize ⟨3, 2, 222⟩]
      "" [] ⟨2, 3, 111⟩ (by decide) (by decide)).2.2⟩
